import Mathlib

/-!
Shallow embedding of the `flow` control-flow engine
(`flow/__init__.py`): `Var`, `Tape`, `State`, `Flow`, `Loop`, `switch`
and the reserved `CONDITION` variable, together with theorems about the
engine's behaviour.

Modelling conventions:
* Python objects mutated in place become explicit state passing: every
  operation is a function `State → Res α` (`Res` keeps the state also on
  the error path, because a Python exception leaves the caller holding
  the state as mutated so far).
* Python `dict`s keyed by object identity become functions out of key
  types carrying an `id : Nat` field realising identity; `KeyError` /
  `IndexError` become explicit `Err` results.
* `Tape` in the source holds back-references to its `State` and `Loop`;
   here the cycle is broken by keying tapes with the loop's plain data
  (`LoopRec`) and performing `Tape.advance` as a `State`-level operation
  (`State.advance`), exactly as the source's `State.advance` delegates.
* The `while` loop inside `Loop.flow_op` is modelled with explicit fuel;
  running out of fuel is the distinguished error `Err.outOfFuel`, which
  the modelled code itself never raises, so hypotheses of the form
  "the run returned `ok`" say that the source run terminated normally.
* `Loop`'s runner additionally returns the list of states observed
  immediately after each body execution (a ghost trace used only to
  *state* properties such as "the body ran N times"; it does not alter
  any state transition).
-/

namespace FlowSpec

/-- `Var`: an identity token. The `id` field realises Python object
identity: equality of keys is reference equality, so two `Var`s with
the same display name are distinct when their `id`s differ.  The
`name`/`docs` payload of the source is display-only (used by `__repr__`
and `__str__`, which are not modelled) and is omitted. -/
structure Var where
  id : Nat
deriving DecidableEq, Repr

/-- Dynamically typed values stored in `State.values`.  The claims only
exercise integers and booleans, so the value universe is closed over
those two kinds. -/
inductive Val where
  | int (n : Int)
  | bool (b : Bool)
deriving DecidableEq, Repr

/-- Python truthiness, as used by `if condition:` in `switch` and by
`test_condition` consumers. -/
def Val.truthy : Val → Bool
  | .int n => n != 0
  | .bool b => b

/-- Python `v + 1` (used by `self.state[self.loop.counter] += 1`); on
this value universe arithmetic on `bool` coerces to `int` as in Python. -/
def Val.addOne : Val → Val
  | .int n => .int (n + 1)
  | .bool b => .int ((if b then 1 else 0) + 1)

/-- The plain data of a `Loop` object as far as `State` is concerned:
identity, its private counter `Var`, its tracked variables and its
`save` flag.  (The body/condition flows live in `Loop` below; `State`
never inspects them, so keeping them out of the key type breaks the
`State`/`Loop` reference cycle of the source.) -/
structure LoopRec where
  id : Nat
  counter : Var
  vars : List Var
  save : Bool
deriving DecidableEq

/-- `Tape`: per-loop history map `Var → list of captured values`
(`Tape.histories` in the source; a missing key means the variable was
never captured, matching `var not in self.histories`). -/
structure Tape where
  histories : Var → Option (List Val)

/-- `Tape(state, loop)` starts with `histories = {}`. -/
def Tape.empty : Tape := ⟨fun _ => none⟩

/-- `Tape.__setitem__`: append `x` to `var`'s history, creating the
entry (`[]`) first when absent. -/
def Tape.append (t : Tape) (v : Var) (x : Val) : Tape :=
  ⟨fun w => if w = v then some ((t.histories v).getD [] ++ [x]) else t.histories w⟩

/-- `State`: current values, stack of active loops (innermost last, as
`list.append` pushes at the end), live tapes, and the `saved_tapes`
side table initialised by `State.__init__` (the source never writes to
it). -/
structure State where
  values : Var → Option Val
  loops : List LoopRec
  tapes : LoopRec → Option Tape
  saved_tapes : LoopRec → Option Tape

/-- A fresh `State()`. -/
def State.fresh : State := ⟨fun _ => none, [], fun _ => none, fun _ => none⟩

/-- Errors surfaced by the engine.  `keyError` / `loopKeyError` are
Python `KeyError` on `State.values` / `State.tapes`; `indexError` is
Python `IndexError` on list indexing; `outOfFuel` marks exhaustion of
the explicit fuel of the loop model (never raised by the source). -/
inductive Err where
  | keyError (v : Var)
  | loopKeyError (l : LoopRec)
  | indexError
  | outOfFuel
deriving DecidableEq

/-- Result of running an operation against a `State`: Python in-place
mutation plus exceptions, so the error case also carries the state as
mutated up to the raise. -/
inductive Res (α : Type) where
  | ok (a : α) (s : State)
  | err (e : Err) (s : State)

/-- The engine's computation type. -/
def M (α : Type) : Type := State → Res α

def M.pure {α : Type} (a : α) : M α := fun s => .ok a s

def M.bind {α β : Type} (x : M α) (f : α → M β) : M β := fun s =>
  match x s with
  | .ok a s' => f a s'
  | .err e s' => .err e s'

instance : Monad M where
  pure := M.pure
  bind := M.bind

@[simp] theorem M.bind_def {α β : Type} (x : M α) (f : α → M β) :
    x >>= f = M.bind x f := rfl

@[simp] theorem M.pure_def {α : Type} (a : α) :
    (pure a : M α) = M.pure a := rfl

@[simp] theorem M.bind_apply {α β : Type} (x : M α) (f : α → M β) (s : State) :
    M.bind x f s = match x s with
      | .ok a s' => f a s'
      | .err e s' => .err e s' := rfl

@[simp] theorem M.pure_apply {α : Type} (a : α) (s : State) :
    M.pure a s = .ok a s := rfl

/-- Raise an exception. -/
def M.throw {α : Type} (e : Err) : M α := fun s => .err e s

/-- Ghost observation of the current state (used only by the loop
model's trace; it is the identity on the state). -/
def M.get : M State := fun s => .ok s s

/-- Python list indexing with negative indices
(`l[i]`, `IndexError` modelled as `none`). -/
def pyGet {α : Type} (l : List α) (i : Int) : Option α :=
  if 0 ≤ i then l.get? i.toNat
  else if i.natAbs ≤ l.length then l.get? (l.length - i.natAbs)
  else none

/-- `State.__getitem__` with a `Var` key: `self.values[key]`,
`KeyError` when absent. -/
def State.getVar (v : Var) : M Val := fun s =>
  match s.values v with
  | some x => .ok x s
  | none => .err (.keyError v) s

/-- `State.__setitem__`: `self.values[var] = value`. -/
def State.setVar (v : Var) (x : Val) : M Unit := fun s =>
  match s with
  | ⟨vals, loops, tapes, saved⟩ =>
    .ok () ⟨fun w => if w = v then some x else vals w, loops, tapes, saved⟩

/-- `State.__delitem__`: `del self.values[var]`, `KeyError` when
absent. -/
def State.delVar (v : Var) : M Unit := fun s =>
  match s with
  | ⟨vals, loops, tapes, saved⟩ =>
    match vals v with
    | some _ => .ok () ⟨fun w => if w = v then none else vals w, loops, tapes, saved⟩
    | none => .err (.keyError v) ⟨vals, loops, tapes, saved⟩

/-- `State.push_loop`: append the loop to the stack, allocate a fresh
`Tape` for it, and initialise its counter `Var` to `-1`. -/
def State.push_loop (l : LoopRec) : M Unit := fun s =>
  match s with
  | ⟨vals, loops, tapes, saved⟩ =>
    .ok () ⟨fun w => if w = l.counter then some (.int (-1)) else vals w,
            loops ++ [l],
            fun l' => if l' = l then some Tape.empty else tapes l',
            saved⟩

/-- `State.pop_loop`: `loop = self.loops.pop()` (`IndexError` on an
empty stack); when `loop.save` is false, `del self.tapes[loop]` and
`del self[loop.counter]`.  Note the source does nothing further when
`save` is true: the tape stays in `tapes` and the counter stays in
`values`; `saved_tapes` is never touched. -/
def State.pop_loop : M Unit := fun s =>
  match s with
  | ⟨vals, loops, tapes, saved⟩ =>
    match loops.getLast? with
    | none => .err .indexError ⟨vals, loops, tapes, saved⟩
    | some l =>
      if l.save then .ok () ⟨vals, loops.dropLast, tapes, saved⟩
      else
        match tapes l with
        | none => .err (.loopKeyError l) ⟨vals, loops.dropLast, tapes, saved⟩
        | some _ =>
          let tapes1 : LoopRec → Option Tape := fun l' => if l' = l then none else tapes l'
          match vals l.counter with
          | some _ =>
              .ok () ⟨fun w => if w = l.counter then none else vals w,
                      loops.dropLast, tapes1, saved⟩
          | none => .err (.keyError l.counter) ⟨vals, loops.dropLast, tapes1, saved⟩

/-- The `for var in only_vars ...` body of `Tape.advance`: append the
current value of each listed variable that is live in `vals` (the
values map after the counter bump), in list order. -/
def captureVars (vals : Var → Option Val) : List Var → Tape → Tape
  | [], t => t
  | v :: rest, t =>
    match vals v with
    | some x => captureVars vals rest (t.append v x)
    | none => captureVars vals rest t

/-- `State.advance` / `Tape.advance`: look up the loop's tape
(`KeyError` when absent), bump the counter
(`self.state[self.loop.counter] += 1`, `KeyError` when the counter is
not live), then capture `only_vars` (defaulting to `loop.vars`) from
the bumped values map. -/
def State.advance (l : LoopRec) (only_vars : Option (List Var)) : M Unit := fun s =>
  match s.tapes l with
  | none => .err (.loopKeyError l) s
  | some t =>
    match s.values l.counter with
    | none => .err (.keyError l.counter) s
    | some cv =>
      match s with
      | ⟨vals, loops, tapes, saved⟩ =>
        let vals1 : Var → Option Val := fun w => if w = l.counter then some cv.addOne else vals w
        let t' := captureVars vals1 (only_vars.getD l.vars) t
        .ok () ⟨vals1, loops, fun l' => if l' = l then some t' else tapes l', saved⟩

/-- The tape lookup chain shared by the tuple forms of
`State.__getitem__`: `self.tapes[loop][var, index]` with Python
indexing into the history list. -/
def readTape (s : State) (l : LoopRec) (v : Var) (i : Int) : Res Val :=
  match s.tapes l with
  | none => .err (.loopKeyError l) s
  | some t =>
    match t.histories v with
    | none => .err (.keyError v) s
    | some h =>
      match pyGet h i with
      | none => .err .indexError s
      | some x => .ok x s

/-- `State.__getitem__` with a 2-tuple `(var, index)`:
`loop = self.loops[-1]` (`IndexError` on an empty stack), then the
tape lookup. -/
def State.getHist2 (v : Var) (i : Int) : M Val := fun s =>
  match pyGet s.loops (-1) with
  | none => .err .indexError s
  | some l => readTape s l v i

/-- `State.__getitem__` with a 3-tuple `(loopOrDepth, var, index)`:
the first component is either a `Loop` reference or an index into
`self.loops` (Python indexing, so `-1` is the innermost). -/
def State.getHist3 (k : LoopRec ⊕ Int) (v : Var) (i : Int) : M Val := fun s =>
  match k with
  | .inl l => readTape s l v i
  | .inr d =>
    match pyGet s.loops d with
    | none => .err .indexError s
    | some l => readTape s l v i

/-- `Flow`: a named computation over `(inputs, state)`.  The inputs
object is opaque to the engine, hence the type parameter. -/
structure Flow (I : Type) where
  name : String
  op : I → M Unit

/-- `Flow.operate`. -/
def Flow.operate {I : Type} (f : Flow I) (i : I) : M Unit := f.op i

/-- `Flow.__rshift__`: `f >> None` returns `f` itself; `f >> g` is the
chained flow running `f` then `g` against the same inputs and state. -/
def Flow.rshift {I : Type} (f : Flow I) : Option (Flow I) → Flow I
  | none => f
  | some g =>
    ⟨f.name ++ " -> " ++ g.name, fun i => do
      f.operate i
      g.operate i⟩

/-- `Flow.__lshift__`: `f << other` is `other >> f`. -/
def Flow.lshift {I : Type} (f : Flow I) (other : Flow I) : Flow I :=
  other.rshift (some f)

/-- The reserved `CONDITION` variable. -/
def CONDITION : Var := ⟨0⟩

/-- `test_condition`: read `CONDITION`, delete it, return it. -/
def test_condition : M Val := do
  let c ← State.getVar CONDITION
  State.delVar CONDITION
  pure c

/-- `if f: f.operate(inputs, state)` for an optional branch flow. -/
def runOpt {I : Type} (f : Option (Flow I)) (i : I) : M Unit :=
  match f with
  | some f => f.operate i
  | none => M.pure ()

/-- The `check` closure built by `switch(yes, no)`: consume `CONDITION`
(read then delete), then dispatch on its truthiness; a missing branch
is a no-op.  (In the source, `switch` then wraps this closure as
`Flow(check)`, which mis-calls the two-argument `Flow` constructor —
see the theorems about that below.) -/
def switchCheck {I : Type} (yes no : Option (Flow I)) (i : I) : M Unit := do
  let c ← State.getVar CONDITION
  State.delVar CONDITION
  if c.truthy then runOpt yes i else runOpt no i

/-- `Loop`: body and condition flows plus the plain configuration
(`LoopRec` carries the tracked vars, `save` flag and the private
counter `Var` created in `Loop.__init__`). -/
structure Loop (I : Type) where
  body_flow : Flow I
  condition_flow : Flow I
  lrec : LoopRec
  check_first : Bool
  initial_vars : Option (List Var)

/-- The `while not stop:` loop of `Loop.flow_op`, entered with
`stop = False`: run the body, advance the tape, run the condition flow
and consume `CONDITION`; repeat while it is truthy.  Returns the ghost
trace of states observed immediately after each body execution. -/
def Loop.go {I : Type} (L : Loop I) (i : I) : Nat → M (List State)
  | 0 => M.throw .outOfFuel
  | fuel + 1 => do
    L.body_flow.operate i
    let sb ← M.get
    State.advance L.lrec none
    L.condition_flow.operate i
    let c ← test_condition
    if c.truthy then do
      let tr ← L.go i fuel
      pure (sb :: tr)
    else
      pure [sb]

/-- `Loop.flow_op`: push the loop, advance the tape once with
`initial_vars` (the baseline capture), optionally test the condition
first, iterate, pop the loop.  Returns the ghost trace of post-body
states (so the body ran exactly `(trace).length` times). -/
def Loop.opFuel {I : Type} (L : Loop I) (i : I) (fuel : Nat) : M (List State) := do
  State.push_loop L.lrec
  State.advance L.lrec L.initial_vars
  let enter ←
    if L.check_first then do
      L.condition_flow.operate i
      let c ← test_condition
      pure c.truthy
    else
      pure true
  if enter then do
    let tr ← L.go i fuel
    State.pop_loop
    pure tr
  else do
    State.pop_loop
    pure ([] : List State)

/-- The `Loop` as a `Flow` (the trace is discarded, as the source's
`flow_op` returns nothing). -/
def Loop.toFlow {I : Type} (L : Loop I) (fuel : Nat) : Flow I :=
  ⟨"Loop[" ++ L.condition_flow.name ++ "? => " ++ L.body_flow.name ++ "]",
   fun i => do
     let _ ← L.opFuel i fuel
     M.pure ()⟩

/-! ### Observation helpers (used only to state theorems) -/

/-- The state held by the caller after a run (present on both the
normal and the exceptional path, as in Python). -/
def resState {α : Type} : Res α → State
  | .ok _ s => s
  | .err _ s => s

/-- The returned value of a successful run. -/
def resVal {α : Type} : Res α → Option α
  | .ok a _ => some a
  | .err _ _ => none

/-- Number of body executions of a loop run (`none` when the run
raised). -/
def traceLen (r : Res (List State)) : Option Nat :=
  (resVal r).map List.length

/-- Whether a tracked variable was live at every post-body capture
point of a successful loop run. -/
def traceLive (v : Var) (r : Res (List State)) : Bool :=
  match r with
  | .ok tr _ => tr.all fun u => (u.values v).isSome
  | .err _ _ => false

/-- The value of `v` immediately after the final body execution of a
successful loop run. -/
def lastTraceVal (v : Var) (r : Res (List State)) : Option (Option Val) :=
  match r with
  | .ok tr _ => tr.getLast?.map fun u => u.values v
  | .err _ _ => none

/-- The error of a failed run. -/
def resErr {α : Type} : Res α → Option Err
  | .ok _ _ => none
  | .err e _ => some e

/-- The state after `del state[CONDITION]` succeeds (the consumed
state a `switch` or loop test dispatches against). -/
def delCond (s : State) : State :=
  { s with values := fun w => if w = CONDITION then none else s.values w }

/-- A flow run from a state in which `CONDITION` is unset does not
leave `CONDITION` set (the contract the spec imposes on branch flows:
any internal use of `CONDITION` is fully consumed). -/
def noCondLeft {I : Type} (f : Flow I) : Prop :=
  ∀ (i : I) (s s' : State), s.values CONDITION = none →
    f.op i s = .ok () s' → s'.values CONDITION = none

/-- A flow that touches only `State.values`, leaving the loop stack,
the tape map and the saved-tape table alone (ordinary computation
blocks, which interact with the state through variable reads and
writes only). -/
def valuesOnly {I : Type} (f : Flow I) : Prop :=
  ∀ (i : I) (s s' : State), f.op i s = .ok () s' →
    s'.loops = s.loops ∧ s'.tapes = s.tapes ∧ s'.saved_tapes = s.saved_tapes

/-! ### Concrete programs used by the scenario claims -/

/-- Python `v < m` on this value universe (`bool` coerces to int). -/
def Val.ltInt (v : Val) (m : Int) : Bool :=
  match v with
  | .int n => n < m
  | .bool b => (if b then 1 else 0) < m

/-- The Var `x` of the spec's concrete scenario. -/
def xVar : Var := ⟨10⟩

/-- The counter Var allocated by the scenario loop's `Loop.__init__`. -/
def cnt1 : Var := ⟨11⟩

/-- The scenario loop's configuration: tracks `x`, `save=True`. -/
def rec1 : LoopRec := ⟨1, cnt1, [xVar], true⟩

/-- An ordinary flow `v = value` (constant assignment). -/
def setVarFlow (v : Var) (x : Val) : Flow Unit := ⟨"set", fun _ => State.setVar v x⟩

/-- An ordinary flow `v += 1`. -/
def incVar (v : Var) : Flow Unit :=
  ⟨"inc", fun _ => do
    let x ← State.getVar v
    State.setVar v x.addOne⟩

/-- A condition flow setting `CONDITION = (v < m)`. -/
def condLtFlow (v : Var) (m : Int) : Flow Unit :=
  ⟨"lt", fun _ => do
    let x ← State.getVar v
    State.setVar CONDITION (.bool (x.ltInt m))⟩

/-- Initial flow of the scenario: sets `x = 0`. -/
def setX0 : Flow Unit := setVarFlow xVar (.int 0)

/-- Body flow of the scenario: `x += 1`. -/
def incX : Flow Unit := incVar xVar

/-- Condition flow of the scenario: sets `CONDITION = (x < 3)`. -/
def xLt3 : Flow Unit := condLtFlow xVar 3

/-- The scenario loop: body `x += 1`, condition `x < 3`,
`trackedVars=[x]`, `checkFirst=True`, `save=True`. -/
def L1 : Loop Unit := ⟨incX, xLt3, rec1, true, none⟩

/-- The scenario run: fresh state, set `x = 0`, then run the loop. -/
def c1run : Res (List State) :=
  M.bind (setX0.operate ()) (fun _ => L1.opFuel () 10) State.fresh

/-- A Var that is never set (its read raises `KeyError`, the spec's
UndefinedVariable). -/
def yVar : Var := ⟨12⟩

/-- Counter of the failing-body loop. -/
def cnt5 : Var := ⟨13⟩

/-- Configuration of the failing-body loop (`save=False`, no tracked
vars). -/
def rec5 : LoopRec := ⟨5, cnt5, [], false⟩

/-- A body flow that raises: it reads the undefined Var `y`. -/
def badBody : Flow Unit :=
  ⟨"badBody", fun _ => do
    let _ ← State.getVar yVar
    M.pure ()⟩

/-- A condition flow that always sets `CONDITION = True`. -/
def condTrue : Flow Unit :=
  ⟨"condTrue", fun _ => State.setVar CONDITION (.bool true)⟩

/-- A loop whose very first body execution raises
(`checkFirst=False`). -/
def L5 : Loop Unit := ⟨badBody, condTrue, rec5, false, none⟩

/-- Run of the failing loop against a fresh state. -/
def c5run : Res (List State) := L5.opFuel () 5 State.fresh

/-! ### Helper lemmas -/

theorem pyGet_append_neg_one {α : Type} (pre : List α) (a b : α) :
    pyGet (pre ++ [a, b]) (-1) = some b := by
  simp only [pyGet, List.length_append, List.length_cons, List.length_nil]
  norm_num
  rw [List.getElem_append_right (by omega)]
  simp only [show pre.length + 1 - pre.length = 1 from by omega]
  rfl

theorem pyGet_append_neg_two {α : Type} (pre : List α) (a b : α) :
    pyGet (pre ++ [a, b]) (-2) = some a := by
  simp only [pyGet, List.length_append, List.length_cons, List.length_nil]
  norm_num
  rw [List.getElem_append_right (by omega)]
  simp only [show pre.length - pre.length = 0 from by omega]
  rfl

/-- Successful `State.advance` only rewrites the advanced loop's own
tape; every other loop's tape is untouched. -/
theorem advance_preserves_other_tapes (l : LoopRec) (ov : Option (List Var))
    (s s' : State) (h : State.advance l ov s = .ok () s') :
    ∀ l', l' ≠ l → s'.tapes l' = s.tapes l' := by
  intro l' hne
  unfold State.advance at h
  cases hts : s.tapes l with
  | none => rw [hts] at h; exact absurd h (by simp)
  | some t =>
    rw [hts] at h
    cases hcv : s.values l.counter with
    | none => rw [hcv] at h; exact absurd h (by simp)
    | some cv =>
      rw [hcv] at h
      simp only [Res.ok.injEq, true_and] at h
      subst h
      simp [hne]

/-! ### Claims -/

/-- C8: sequencing of flows is associative — for all flows `f`, `g`,
`h`, every inputs object and every initial state, operating
`(f>>g)>>h` and `f>>(g>>h)` produce identical results (same final
state, and on the error path the same error and same state). -/
theorem C8_seq_assoc {I : Type} (f g h : Flow I) (i : I) (s : State) :
    ((f.rshift (some g)).rshift (some h)).op i s
      = (f.rshift (some (g.rshift (some h)))).op i s := by
  simp only [Flow.rshift, Flow.operate, M.bind_def, M.bind_apply]
  cases f.op i s with
  | ok a s1 => cases g.op i s1 <;> rfl
  | err e s1 => rfl

/-- C9: composing with an absent flow is the identity — `f >> None`
returns `f` itself, hence behaves exactly as `f` on every inputs
object and state. -/
theorem C9_rshift_none_identity {I : Type} (f : Flow I) :
    f.rshift none = f ∧ ∀ (i : I) (s : State), (f.rshift none).op i s = f.op i s :=
  ⟨rfl, fun _ _ => rfl⟩

/-- C10: when the active loop stack is empty, the two-argument indexed
history read `state[var, index]` fails with `IndexError`
(`self.loops[-1]` on an empty list) for every Var and every index — it
never falls back to the variable's current value. -/
theorem C10_hist_read_empty_stack (s : State) (v : Var) (i : Int)
    (h : s.loops = []) : State.getHist2 v i s = .err .indexError s := by
  simp [State.getHist2, h, pyGet]

/-- Witness for C10: a state holding a current value for `x` but no
active loop; the indexed read still raises rather than returning the
value. -/
def s10 : State :=
  { State.fresh with values := fun w => if w = xVar then some (.int 5) else none }

theorem C10_witness : State.getHist2 xVar 0 s10 = .err .indexError s10 :=
  C10_hist_read_empty_stack s10 xVar 0 rfl

/-- C1: the spec's concrete scenario (initial flow sets `x=0`, then
`Loop(body: x += 1, condition: x < 3, trackedVars=[x],
checkFirst=True, save=True)` against a fresh `State`).  The body runs
exactly 3 times, `x` ends at 3, the surviving Tape for `x` holds the 4
entries `[0, 1, 2, 3]`, and the loop is off the stack — but, contrary
to the claim, the loop's counter Var is STILL present in
`State.values` (with value 3), the Tape survives in the live tape map
`State.tapes`, and `saved_tapes` stays empty: `pop_loop` does nothing
at all for a `save=True` loop. -/
theorem C1_concrete_scenario :
    traceLen c1run = some 3 ∧
    (resState c1run).values xVar = some (.int 3) ∧
    ((resState c1run).tapes rec1).map (fun t => t.histories xVar)
      = some (some [.int 0, .int 1, .int 2, .int 3]) ∧
    (resState c1run).loops = [] ∧
    (resState c1run).values cnt1 = some (.int 3) ∧
    ((resState c1run).saved_tapes rec1).isNone = true :=
  ⟨rfl, rfl, rfl, rfl, rfl, rfl⟩

/-- C2: what `pop_loop` actually does when the popped loop's `save`
flag is true: it removes the loop from the stack and changes NOTHING
else — the Tape stays in the live map `State.tapes` (it is not moved
into `saved_tapes`) and the counter Var stays in `State.values`.  This
refutes the claimed migration/removal and the claimed counter-liveness
invariant. -/
theorem C2_pop_loop_save_true (s : State) (l : LoopRec)
    (htop : s.loops.getLast? = some l) (hsave : l.save = true) :
    State.pop_loop s = .ok () { s with loops := s.loops.dropLast } := by
  simp [State.pop_loop, htop, hsave]

/-- Witness for C2: a state whose only active loop is the `save=True`
scenario loop, with its counter live and its tape allocated; popping
it keeps values, tapes and saved_tapes intact. -/
def s2 : State :=
  { values := fun w => if w = cnt1 then some (.int 3) else none,
    loops := [rec1],
    tapes := fun l => if l = rec1 then some Tape.empty else none,
    saved_tapes := fun _ => none }

theorem C2_witness :
    State.pop_loop s2 = .ok () { s2 with loops := s2.loops.dropLast } :=
  C2_pop_loop_save_true s2 rec1 rfl rfl

/-- C5: a loop whose first body execution raises (it reads an
undefined Var) propagates the error to the caller, but `Loop.flow_op`
has no scope guard around `push_loop`/`pop_loop`: the failed loop is
left on the loop stack and its Tape is left in the tape map — exactly
the stale entries the claim says cannot occur. -/
theorem C5_error_leaves_stale_scope :
    resErr c5run = some (.keyError yVar) ∧
    (resState c5run).loops = [rec5] ∧
    ((resState c5run).tapes rec5).isSome = true :=
  ⟨rfl, rfl, rfl⟩

/-- C6: consuming `CONDITION` when it is not set is a hard failure
(`KeyError` on the reserved Var — the spec's MissingCondition) that
aborts the run: (a) `test_condition` fails so on any state without
`CONDITION`; (b) the `switch` dispatch operation fails in the same
way; (c) a loop's condition test — condition flow followed by
`test_condition` — fails so whenever the condition flow returned
without setting `CONDITION`. -/
theorem C6_missing_condition_fails :
    (∀ s : State, s.values CONDITION = none →
      test_condition s = .err (.keyError CONDITION) s) ∧
    (∀ (I : Type) (yes no : Option (Flow I)) (i : I) (s : State),
      s.values CONDITION = none →
      switchCheck yes no i s = .err (.keyError CONDITION) s) ∧
    (∀ (I : Type) (c : Flow I) (i : I) (s s' : State),
      c.op i s = .ok () s' → s'.values CONDITION = none →
      M.bind (c.op i) (fun _ => test_condition) s = .err (.keyError CONDITION) s') := by
  refine ⟨?_, ?_, ?_⟩
  · intro s h
    simp [test_condition, State.getVar, h]
  · intro I yes no i s h
    simp [switchCheck, State.getVar, h]
  · intro I c i s s' hop h
    simp only [M.bind_apply, hop]
    simp [test_condition, State.getVar, h]

/-- Witness for C6: against a fresh state (no `CONDITION`), both
consumption sites fail with the `CONDITION` `KeyError`. -/
theorem C6_witness :
    test_condition State.fresh = .err (.keyError CONDITION) State.fresh ∧
    switchCheck (some setX0) none () State.fresh
      = .err (.keyError CONDITION) State.fresh :=
  ⟨C6_missing_condition_fails.1 State.fresh rfl,
   C6_missing_condition_fails.2.1 Unit (some setX0) none () State.fresh rfl⟩

/-- C7: with two nested active loops (stack `… ++ [outer, inner]`),
the three-part indexed read addressed by relative depth resolves
depth `-1` to the innermost loop's Tape and depth `-2` to the next
outer loop's Tape, and a successful `advance` for one loop never
touches any other loop's Tape (so histories of two loops tracking the
same Var stay independent). -/
theorem C7_nested_loop_tapes (s : State) (pre : List LoopRec)
    (louter linner : LoopRec) (hs : s.loops = pre ++ [louter, linner])
    (v : Var) (idx : Int) :
    State.getHist3 (.inr (-1)) v idx s = readTape s linner v idx ∧
    State.getHist3 (.inr (-2)) v idx s = readTape s louter v idx ∧
    (∀ (l : LoopRec) (ov : Option (List Var)) (s' : State),
      State.advance l ov s = .ok () s' →
      ∀ l', l' ≠ l → s'.tapes l' = s.tapes l') := by
  refine ⟨?_, ?_, ?_⟩
  · simp [State.getHist3, hs, pyGet_append_neg_one]
  · simp [State.getHist3, hs, pyGet_append_neg_two]
  · intro l ov s' h
    exact advance_preserves_other_tapes l ov s s' h

/-- Witness for C7: a concrete state with two nested loops both
holding a history for the same Var `x` — depth `-1` reads the inner
tape (value 9), depth `-2` the outer tape (value 7). -/
def cntA : Var := ⟨14⟩

def cntB : Var := ⟨15⟩

def recA : LoopRec := ⟨6, cntA, [xVar], false⟩

def recB : LoopRec := ⟨7, cntB, [xVar], false⟩

def s7 : State :=
  { values := fun _ => none,
    loops := [recA, recB],
    tapes := fun l =>
      if l = recB then some ⟨fun w => if w = xVar then some [.int 9] else none⟩
      else if l = recA then some ⟨fun w => if w = xVar then some [.int 7] else none⟩
      else none,
    saved_tapes := fun _ => none }

theorem C7_witness :
    State.getHist3 (.inr (-1)) xVar 0 s7 = readTape s7 recB xVar 0 ∧
    State.getHist3 (.inr (-2)) xVar 0 s7 = readTape s7 recA xVar 0 ∧
    readTape s7 recB xVar 0 = .ok (.int 9) s7 ∧
    readTape s7 recA xVar 0 = .ok (.int 7) s7 :=
  ⟨(C7_nested_loop_tapes s7 [] recA recB rfl xVar 0).1,
   (C7_nested_loop_tapes s7 [] recA recB rfl xVar 0).2.1, rfl, rfl⟩

/-- Helper: a constant-assignment flow to a Var other than `CONDITION`
never leaves `CONDITION` set. -/
theorem noCondLeft_setVarFlow (v : Var) (x : Val) (hv : v ≠ CONDITION) :
    noCondLeft (setVarFlow v x) := by
  intro i s s' hnone hop
  obtain ⟨vals, loops, tapes, saved⟩ := s
  simp only [setVarFlow, State.setVar, Res.ok.injEq, true_and] at hop
  subst hop
  simp only []
  rw [if_neg (fun h => hv h.symm)]
  exact hnone

/-- C3: the dispatch operation of `switch` (the `check` closure in the
source).  Against a state with `CONDITION` set to `c`, it deletes
`CONDITION` first (one-shot consumption) and then runs `yes` on the
consumed state when `c` is truthy and `no` otherwise, a missing branch
being a no-op; and provided each present branch does not itself leave
`CONDITION` set, `CONDITION` is absent from `State.values` whenever the
dispatch returns normally, regardless of branch taken. -/
theorem C3_switch_dispatch {I : Type} (yes no : Option (Flow I)) (i : I)
    (s : State) (c : Val) (hc : s.values CONDITION = some c)
    (hy : ∀ f, yes = some f → noCondLeft f)
    (hn : ∀ f, no = some f → noCondLeft f) :
    switchCheck yes no i s
      = (if c.truthy then runOpt yes i (delCond s) else runOpt no i (delCond s)) ∧
    (yes = none → c.truthy = true → switchCheck yes no i s = .ok () (delCond s)) ∧
    (no = none → c.truthy = false → switchCheck yes no i s = .ok () (delCond s)) ∧
    (∀ (u : Unit) (s2 : State), switchCheck yes no i s = .ok u s2 →
      s2.values CONDITION = none) := by
  obtain ⟨vals, loops, tapes, saved⟩ := s
  simp only [State.values] at hc
  have hmain : switchCheck yes no i ⟨vals, loops, tapes, saved⟩
      = (if c.truthy then runOpt yes i (delCond ⟨vals, loops, tapes, saved⟩)
         else runOpt no i (delCond ⟨vals, loops, tapes, saved⟩)) := by
    simp only [switchCheck, M.bind_def, M.bind_apply, State.getVar, State.delVar, hc,
      delCond]
    split <;> rfl
  refine ⟨hmain, ?_, ?_, ?_⟩
  · intro hyes htruthy
    rw [hmain, htruthy, if_pos rfl, hyes]
    rfl
  · intro hno htruthy
    rw [hmain, htruthy, if_neg (by simp)]
    rw [hno]
    rfl
  · intro u s2 h
    rw [hmain] at h
    have hdel : (delCond (⟨vals, loops, tapes, saved⟩ : State)).values CONDITION
        = none := by
      simp [delCond]
    rcases htr : c.truthy with _ | _
    all_goals rw [htr] at h
    · simp only [if_neg Bool.false_ne_true] at h
      cases hno : no with
      | none => rw [hno] at h; cases h; exact hdel
      | some f =>
        rw [hno] at h
        exact hn f hno i _ s2 hdel h
    · simp only [if_pos rfl] at h
      cases hyes : yes with
      | none => rw [hyes] at h; cases h; exact hdel
      | some f =>
        rw [hyes] at h
        exact hy f hyes i _ s2 hdel h

/-- Witness state for C3: fresh except `CONDITION = True`. -/
def s3c : State :=
  ⟨fun w => if w = CONDITION then some (.bool true) else none, [], fun _ => none,
   fun _ => none⟩

theorem C3_witness :
    (switchCheck (some setX0) none () s3c
      = (if (Val.bool true).truthy then runOpt (some setX0) () (delCond s3c)
         else runOpt none () (delCond s3c))) ∧
    (resState (switchCheck (some setX0) none () s3c)).values CONDITION = none ∧
    (resState (switchCheck (some setX0) none () s3c)).values xVar = some (.int 0) :=
  ⟨(C3_switch_dispatch (some setX0) none () s3c (.bool true) rfl
      (fun f hf => by
        cases hf
        exact noCondLeft_setVarFlow xVar (.int 0) (by decide))
      (fun f hf => by cases hf)).1,
   rfl, rfl⟩

/-! ### Tape-evolution machinery for the loop theorems -/

/-- One capture step: what one in-loop `advance` does to `v`'s history
when the post-body state was `u` (append `v`'s live value, or leave the
history alone when `v` is not live). -/
def capStep (v : Var) (h : Option (List Val)) (u : State) : Option (List Val) :=
  match u.values v with
  | some x => some (h.getD [] ++ [x])
  | none => h

/-- The evolution of `v`'s history across a trace of post-body
states. -/
def trCapture (v : Var) (h : Option (List Val)) (tr : List State) : Option (List Val) :=
  tr.foldl (capStep v) h

theorem trCapture_cons (v : Var) (h : Option (List Val)) (u : State) (tr : List State) :
    trCapture v h (u :: tr) = trCapture v (capStep v h u) tr := rfl

theorem trCapture_live (v : Var) (hh : List Val) (tr : List State)
    (hl : ∀ u ∈ tr, (u.values v).isSome = true) :
    trCapture v (some hh) tr = some (hh ++ tr.filterMap fun u => u.values v) := by
  induction tr generalizing hh with
  | nil => simp [trCapture]
  | cons u rest ih =>
    obtain ⟨x, hx⟩ := Option.isSome_iff_exists.mp (hl u (by simp))
    rw [trCapture_cons]
    simp only [capStep, hx, Option.getD_some]
    rw [ih (hh ++ [x]) fun u hu => hl u (by simp [hu])]
    simp [hx, List.filterMap_cons]

theorem filterMap_values_length (v : Var) (tr : List State)
    (hl : ∀ u ∈ tr, (u.values v).isSome = true) :
    (tr.filterMap fun u => u.values v).length = tr.length := by
  induction tr with
  | nil => rfl
  | cons u rest ih =>
    obtain ⟨x, hx⟩ := Option.isSome_iff_exists.mp (hl u (by simp))
    simp only [List.filterMap_cons, hx, List.length_cons]
    rw [ih fun u hu => hl u (by simp [hu])]

theorem getLast_filterMap_values (v : Var) (tr : List State)
    (hl : ∀ u ∈ tr, (u.values v).isSome = true) (hne : tr ≠ []) :
    ∀ hh : List Val, ∃ u x, tr.getLast? = some u ∧ u.values v = some x ∧
      (hh ++ tr.filterMap fun u => u.values v).getLast? = some x := by
  induction tr with
  | nil => exact absurd rfl hne
  | cons u rest ih =>
    intro hh
    obtain ⟨x, hx⟩ := Option.isSome_iff_exists.mp (hl u (by simp))
    cases rest with
    | nil =>
      refine ⟨u, x, rfl, hx, ?_⟩
      simp [List.filterMap_cons, hx]
    | cons u2 rest2 =>
      obtain ⟨ul, xl, hul, hxl, happ⟩ :=
        ih (fun w hw => hl w (by simp [hw])) (by simp) (hh ++ [x])
      refine ⟨ul, xl, ?_, hxl, ?_⟩
      · rw [List.getLast?_cons_cons]
        exact hul
      · simpa [List.filterMap_cons, hx] using happ

/-- Capturing a list of variables not containing `v` leaves `v`'s
history unchanged. -/
theorem captureVars_not_mem (vals : Var → Option Val) (lst : List Var) (t : Tape)
    (v : Var) (hv : v ∉ lst) :
    (captureVars vals lst t).histories v = t.histories v := by
  induction lst generalizing t with
  | nil => rfl
  | cons w rest ih =>
    simp only [List.mem_cons, not_or] at hv
    simp only [captureVars]
    cases vals w with
    | some x =>
      rw [ih _ hv.2]
      simp [Tape.append, hv.1]
    | none => exact ih _ hv.2

/-- Capturing never touches the history of a variable that is not
live. -/
theorem captureVars_not_live (vals : Var → Option Val) (lst : List Var) (t : Tape)
    (v : Var) (hnone : vals v = none) :
    (captureVars vals lst t).histories v = t.histories v := by
  induction lst generalizing t with
  | nil => rfl
  | cons w rest ih =>
    simp only [captureVars]
    cases hw : vals w with
    | some x =>
      rw [ih]
      have hvw : v ≠ w := fun h => by rw [h, hw] at hnone; cases hnone
      simp [Tape.append, hvw]
    | none => exact ih _

/-- Capturing a list containing `v` exactly once, with `v` live,
appends exactly `v`'s current value to its history. -/
theorem captureVars_count_one (vals : Var → Option Val) (lst : List Var) (t : Tape)
    (v : Var) (x : Val) (hx : vals v = some x) (hc : lst.count v = 1) :
    (captureVars vals lst t).histories v
      = some ((t.histories v).getD [] ++ [x]) := by
  induction lst generalizing t with
  | nil => simp at hc
  | cons w rest ih =>
    by_cases hw : w = v
    · subst hw
      have hrest : rest.count w = 0 := by
        rw [List.count_cons_self] at hc
        omega
      have hnot : w ∉ rest := by
        rw [← List.count_eq_zero]
        exact hrest
      simp only [captureVars, hx]
      rw [captureVars_not_mem vals rest _ w hnot]
      simp [Tape.append]
    · have hrest : rest.count v = 1 := by
        rw [List.count_cons] at hc
        simpa [hw] using hc
      cases hvw : vals w with
      | some xw =>
        simp only [captureVars, hvw]
        rw [ih _ hrest]
        have hvw2 : v ≠ w := fun h => hw h.symm
        simp [Tape.append, hvw2]
      | none =>
        simp only [captureVars, hvw]
        exact ih _ hrest

/-! ### Stepping lemmas for the monad -/

theorem M.bind_ok {α β : Type} {x : M α} {f : α → M β} {s s' : State} {b : β}
    (h : M.bind x f s = .ok b s') :
    ∃ a s1, x s = .ok a s1 ∧ f a s1 = .ok b s' := by
  unfold M.bind at h
  cases hx : x s with
  | ok a s1 => rw [hx] at h; exact ⟨a, s1, rfl, h⟩
  | err e s1 => rw [hx] at h; cases h

theorem M.pure_ok {α : Type} {a b : α} {s s' : State}
    (h : M.pure a s = .ok b s') : b = a ∧ s' = s := by
  unfold M.pure at h
  cases h
  exact ⟨rfl, rfl⟩

@[simp] theorem Flow.operate_eq {I : Type} (f : Flow I) (i : I) :
    f.operate i = f.op i := rfl

/-! ### Characterisation of the state operations -/

/-- What a successful `advance` did: the loop's tape existed, its
counter was live, the stack / saved tapes / other values / other tapes
are untouched, and the loop's own tape has been replaced by the
captured one. -/
theorem advance_ok (l : LoopRec) (ov : Option (List Var)) (s s' : State)
    (h : State.advance l ov s = .ok () s') :
    ∃ t, s.tapes l = some t ∧
      s'.loops = s.loops ∧ s'.saved_tapes = s.saved_tapes ∧
      (∀ w, w ≠ l.counter → s'.values w = s.values w) ∧
      s'.tapes l = some (captureVars s'.values (ov.getD l.vars) t) ∧
      (∀ l', l' ≠ l → s'.tapes l' = s.tapes l') := by
  obtain ⟨vals, loops, tapes, saved⟩ := s
  unfold State.advance at h
  cases hts : tapes l with
  | none => rw [show State.tapes ⟨vals, loops, tapes, saved⟩ l = tapes l from rfl, hts] at h; cases h
  | some t =>
    rw [show State.tapes ⟨vals, loops, tapes, saved⟩ l = tapes l from rfl, hts] at h
    cases hcv : vals l.counter with
    | none =>
      rw [show State.values ⟨vals, loops, tapes, saved⟩ l.counter = vals l.counter from rfl,
        hcv] at h
      cases h
    | some cv =>
      rw [show State.values ⟨vals, loops, tapes, saved⟩ l.counter = vals l.counter from rfl,
        hcv] at h
      simp only [Res.ok.injEq, true_and] at h
      subst h
      refine ⟨t, hts, rfl, rfl, ?_, ?_, ?_⟩
      · intro w hw
        simp [hw]
      · simp
      · intro l' hl'
        simp [hl']

/-- What a successful `test_condition` did: `CONDITION` was set, is now
consumed, and nothing but `values` changed. -/
theorem test_condition_ok (s : State) (c : Val) (s' : State)
    (h : test_condition s = .ok c s') :
    s.values CONDITION = some c ∧ s'.loops = s.loops ∧ s'.tapes = s.tapes ∧
      s'.saved_tapes = s.saved_tapes ∧ s'.values CONDITION = none := by
  obtain ⟨vals, loops, tapes, saved⟩ := s
  simp only [test_condition, M.bind_def] at h
  obtain ⟨c1, s1, hget, h⟩ := M.bind_ok h
  cases hv : vals CONDITION with
  | none =>
    simp only [State.getVar, show State.values ⟨vals, loops, tapes, saved⟩ = vals from rfl,
      hv] at hget
    cases hget
  | some c0 =>
    simp only [State.getVar, show State.values ⟨vals, loops, tapes, saved⟩ = vals from rfl,
      hv] at hget
    cases hget
    obtain ⟨a2, s2, hdel, h⟩ := M.bind_ok h
    simp only [State.delVar, hv] at hdel
    cases hdel
    obtain ⟨hc0, hs'⟩ := M.pure_ok h
    subst hc0
    subst hs'
    refine ⟨hv, rfl, rfl, rfl, by simp⟩

/-- `push_loop` never fails and its effect is explicit. -/
theorem push_loop_ok (l : LoopRec) (s : State) :
    State.push_loop l s = .ok ()
      ⟨fun w => if w = l.counter then some (.int (-1)) else s.values w,
       s.loops ++ [l],
       fun l' => if l' = l then some Tape.empty else s.tapes l',
       s.saved_tapes⟩ := by
  obtain ⟨vals, loops, tapes, saved⟩ := s
  rfl

/-- `pop_loop` on a stack whose top has `save = True` only shortens the
stack (shared helper; see also the C2 theorem). -/
theorem pop_loop_save_eq (s : State) (l : LoopRec)
    (htop : s.loops.getLast? = some l) (hsave : l.save = true) :
    State.pop_loop s = .ok () { s with loops := s.loops.dropLast } := by
  obtain ⟨vals, loops, tapes, saved⟩ := s
  simp only [State.pop_loop]
  rw [show State.loops ⟨vals, loops, tapes, saved⟩ = loops from rfl] at htop
  rw [htop] at *
  simp [htop, hsave]

/-! ### The concrete flows touch only values -/

theorem valuesOnly_setVarFlow (v : Var) (x : Val) : valuesOnly (setVarFlow v x) := by
  intro i s s' hop
  obtain ⟨vals, loops, tapes, saved⟩ := s
  simp only [setVarFlow, State.setVar, Res.ok.injEq, true_and] at hop
  subst hop
  exact ⟨rfl, rfl, rfl⟩

theorem valuesOnly_incVar (v : Var) : valuesOnly (incVar v) := by
  intro i s s' hop
  obtain ⟨vals, loops, tapes, saved⟩ := s
  simp only [incVar, M.bind_def] at hop
  obtain ⟨x, s1, hget, hop⟩ := M.bind_ok hop
  cases hv : vals v with
  | none =>
    simp only [State.getVar, show State.values ⟨vals, loops, tapes, saved⟩ = vals from rfl,
      hv] at hget
    cases hget
  | some x0 =>
    simp only [State.getVar, show State.values ⟨vals, loops, tapes, saved⟩ = vals from rfl,
      hv] at hget
    cases hget
    simp only [State.setVar, Res.ok.injEq, true_and] at hop
    subst hop
    exact ⟨rfl, rfl, rfl⟩

theorem valuesOnly_condLtFlow (v : Var) (m : Int) : valuesOnly (condLtFlow v m) := by
  intro i s s' hop
  obtain ⟨vals, loops, tapes, saved⟩ := s
  simp only [condLtFlow, M.bind_def] at hop
  obtain ⟨x, s1, hget, hop⟩ := M.bind_ok hop
  cases hv : vals v with
  | none =>
    simp only [State.getVar, show State.values ⟨vals, loops, tapes, saved⟩ = vals from rfl,
      hv] at hget
    cases hget
  | some x0 =>
    simp only [State.getVar, show State.values ⟨vals, loops, tapes, saved⟩ = vals from rfl,
      hv] at hget
    cases hget
    simp only [State.setVar, Res.ok.injEq, true_and] at hop
    subst hop
    exact ⟨rfl, rfl, rfl⟩

/-- The capture a single in-loop `advance` performs on `v`'s history is
one `capStep` at the post-body state, provided `v` is tracked exactly
once and is not the counter. -/
theorem captureVars_capStep (s1 s2 : State) (t : Tape) (v : Var)
    (lst : List Var) (hcount : lst.count v = 1)
    (hvv : s2.values v = s1.values v) :
    (captureVars s2.values lst t).histories v = capStep v (t.histories v) s1 := by
  cases hlive : s1.values v with
  | some x =>
    rw [captureVars_count_one s2.values lst t v x (by rw [hvv, hlive]) hcount]
    simp [capStep, hlive]
  | none =>
    rw [captureVars_not_live s2.values lst t v (by rw [hvv, hlive])]
    simp [capStep, hlive]

/-- Invariant of the `while` part of `Loop.flow_op`: a successful run
entered with some tape for the loop leaves the loop stack unchanged,
runs the body at least once, and evolves the tracked variable's
history by exactly one `capStep` per post-body state of the trace. -/
theorem Loop.go_spec {I : Type} (L : Loop I) (i : I)
    (hb : valuesOnly L.body_flow) (hcnd : valuesOnly L.condition_flow)
    (v : Var) (hcount : L.lrec.vars.count v = 1) (hvc : v ≠ L.lrec.counter) :
    ∀ (fuel : Nat) (s : State) (tr : List State) (s' : State),
      L.go i fuel s = .ok tr s' →
      s'.loops = s.loops ∧ tr ≠ [] ∧
      ∀ t, s.tapes L.lrec = some t →
        ∃ t', s'.tapes L.lrec = some t' ∧
          t'.histories v = trCapture v (t.histories v) tr := by
  intro fuel
  induction fuel with
  | zero =>
    intro s tr s' h
    simp [Loop.go, M.throw] at h
  | succ fuel ih =>
    intro s tr s' h
    simp only [Loop.go, M.bind_def, M.pure_def] at h
    obtain ⟨⟨⟩, s1, hbody, h⟩ := M.bind_ok h
    obtain ⟨hl1, ht1, hsv1⟩ := hb i s s1 hbody
    obtain ⟨sb, s1b, hget, h⟩ := M.bind_ok h
    unfold M.get at hget
    injection hget with hsb hs1b
    subst hsb
    subst hs1b
    obtain ⟨⟨⟩, s2, hadv, h⟩ := M.bind_ok h
    obtain ⟨t1, hts1, hl2, hsv2, hvals2, htape2, hother2⟩ :=
      advance_ok L.lrec none s1 s2 hadv
    obtain ⟨⟨⟩, s3, hcond, h⟩ := M.bind_ok h
    obtain ⟨hl3, ht3, hsv3⟩ := hcnd i s2 s3 hcond
    obtain ⟨cv, s4, htc, h⟩ := M.bind_ok h
    obtain ⟨hcset, hl4, ht4, hsv4, hcnone⟩ := test_condition_ok s3 cv s4 htc
    have hcap : s2.tapes L.lrec
        = some (captureVars s2.values L.lrec.vars t1) := by
      simpa using htape2
    cases htru : cv.truthy with
    | false =>
      rw [htru] at h
      simp only [Bool.false_eq_true, if_false] at h
      obtain ⟨htr, hs'⟩ := M.pure_ok h
      subst htr
      subst hs'
      refine ⟨by rw [hl4, hl3, hl2, hl1], by simp, ?_⟩
      intro t hts
      have ht1t : t1 = t := by
        rw [ht1, hts] at hts1
        exact (Option.some.inj hts1).symm
      subst ht1t
      refine ⟨captureVars s2.values L.lrec.vars t1, by rw [ht4, ht3, hcap], ?_⟩
      rw [captureVars_capStep s1 s2 t1 v L.lrec.vars hcount (hvals2 v hvc)]
      rfl
    | true =>
      rw [htru] at h
      simp only [if_true] at h
      obtain ⟨tr0, s5, hgo, h⟩ := M.bind_ok h
      obtain ⟨htr, hs'⟩ := M.pure_ok h
      subst htr
      subst hs'
      obtain ⟨ihl, ihne, ihtape⟩ := ih s4 tr0 s' hgo
      refine ⟨by rw [ihl, hl4, hl3, hl2, hl1], by simp, ?_⟩
      intro t hts
      have ht1t : t1 = t := by
        rw [ht1, hts] at hts1
        exact (Option.some.inj hts1).symm
      subst ht1t
      obtain ⟨t', hfin, hhist⟩ :=
        ihtape (captureVars s2.values L.lrec.vars t1) (by rw [ht4, ht3, hcap])
      refine ⟨t', hfin, ?_⟩
      rw [hhist, trCapture_cons,
        captureVars_capStep s1 s2 t1 v L.lrec.vars hcount (hvals2 v hvc)]

/-- A successful full `Loop.flow_op` run of a `save=True` loop whose
body and condition flows touch only values: the final state still holds
the loop's tape, and the tracked variable's history is the baseline
capture followed by one `capStep` per body execution. -/
theorem Loop.opFuel_spec {I : Type} (L : Loop I) (i : I)
    (hb : valuesOnly L.body_flow) (hcnd : valuesOnly L.condition_flow)
    (hsave : L.lrec.save = true)
    (v : Var) (hcount : L.lrec.vars.count v = 1)
    (hinit : (L.initial_vars.getD L.lrec.vars).count v = 1)
    (hvc : v ≠ L.lrec.counter)
    (fuel : Nat) (s : State) (tr : List State) (s' : State)
    (hrun : L.opFuel i fuel s = .ok tr s')
    (x0 : Val) (hx0 : s.values v = some x0) :
    ∃ t', s'.tapes L.lrec = some t' ∧
      t'.histories v = trCapture v (some [x0]) tr := by
  simp only [Loop.opFuel, M.bind_def, M.pure_def] at hrun
  obtain ⟨⟨⟩, s1, hpush, hrun⟩ := M.bind_ok hrun
  rw [push_loop_ok] at hpush
  injection hpush with hu hs1
  subst hs1
  obtain ⟨⟨⟩, s2, hadv, hrun⟩ := M.bind_ok hrun
  obtain ⟨t0, hts0, hl2, hsv2, hvals2, htape2, hother2⟩ :=
    advance_ok L.lrec L.initial_vars _ s2 hadv
  have ht0 : t0 = Tape.empty := by
    simp only [State.tapes, if_pos rfl] at hts0
    exact (Option.some.inj hts0).symm
  subst ht0
  have hs2v : s2.values v = some x0 := by
    rw [hvals2 v hvc]
    simp only [State.values, if_neg hvc]
    exact hx0
  have hhist_s2 : (captureVars s2.values (L.initial_vars.getD L.lrec.vars)
      Tape.empty).histories v = some [x0] := by
    rw [captureVars_count_one s2.values _ Tape.empty v x0 hs2v hinit]
    rfl
  have hloops2 : s2.loops = s.loops ++ [L.lrec] := by rw [hl2]
  have htape_s2 : s2.tapes L.lrec
      = some (captureVars s2.values (L.initial_vars.getD L.lrec.vars) Tape.empty) :=
    htape2
  -- shared processing of the two terminal branches of `flow_op`
  have htail_true : ∀ s3 : State, s3.loops = s.loops ++ [L.lrec] →
      s3.tapes L.lrec
        = some (captureVars s2.values (L.initial_vars.getD L.lrec.vars) Tape.empty) →
      (M.bind (L.go i fuel) fun tr0 =>
        M.bind State.pop_loop fun _ => M.pure tr0) s3 = .ok tr s' →
      ∃ t', s'.tapes L.lrec = some t' ∧
        t'.histories v = trCapture v (some [x0]) tr := by
    intro s3 hloops3 htape3 h
    obtain ⟨tr0, s4, hgo, h⟩ := M.bind_ok h
    obtain ⟨hl4, htr0ne, htape4⟩ :=
      Loop.go_spec L i hb hcnd v hcount hvc fuel s3 tr0 s4 hgo
    obtain ⟨t', hfin4, hhist4⟩ := htape4 _ htape3
    obtain ⟨⟨⟩, s5, hpop, h⟩ := M.bind_ok h
    have hlast : s4.loops.getLast? = some L.lrec := by
      rw [hl4, hloops3]
      simp
    rw [pop_loop_save_eq s4 L.lrec hlast hsave] at hpop
    injection hpop with hu2 hs5
    subst hs5
    obtain ⟨htr, hs'⟩ := M.pure_ok h
    subst htr
    subst hs'
    exact ⟨t', hfin4, by rw [hhist4, hhist_s2]⟩
  have htail_false : ∀ s3 : State, s3.loops = s.loops ++ [L.lrec] →
      s3.tapes L.lrec
        = some (captureVars s2.values (L.initial_vars.getD L.lrec.vars) Tape.empty) →
      (M.bind State.pop_loop fun _ => M.pure ([] : List State)) s3 = .ok tr s' →
      ∃ t', s'.tapes L.lrec = some t' ∧
        t'.histories v = trCapture v (some [x0]) tr := by
    intro s3 hloops3 htape3 h
    obtain ⟨⟨⟩, s5, hpop, h⟩ := M.bind_ok h
    have hlast : s3.loops.getLast? = some L.lrec := by
      rw [hloops3]
      simp
    rw [pop_loop_save_eq s3 L.lrec hlast hsave] at hpop
    injection hpop with hu2 hs5
    subst hs5
    obtain ⟨htr, hs'⟩ := M.pure_ok h
    subst htr
    subst hs'
    exact ⟨captureVars s2.values (L.initial_vars.getD L.lrec.vars) Tape.empty,
      htape3, by rw [hhist_s2]; rfl⟩
  cases hcf : L.check_first with
  | false =>
    rw [hcf] at hrun
    simp only [Bool.false_eq_true, if_false] at hrun
    obtain ⟨y, s2b, hpure, hrun⟩ := M.bind_ok hrun
    obtain ⟨hy, hs2b⟩ := M.pure_ok hpure
    subst hy
    rw [hs2b] at hrun
    simp only [reduceIte] at hrun
    exact htail_true s2 hloops2 htape_s2 hrun
  | true =>
    rw [hcf] at hrun
    simp only [if_true] at hrun
    obtain ⟨⟨⟩, sc, hcond, hrun⟩ := M.bind_ok hrun
    obtain ⟨hlc, htc2, hsvc⟩ := hcnd i s2 sc hcond
    obtain ⟨cv, sd, htcc, hrun⟩ := M.bind_ok hrun
    obtain ⟨hcset, hld, htd, hsvd, hcnone⟩ := test_condition_ok sc cv sd htcc
    obtain ⟨y, sd2, hpure, hrun⟩ := M.bind_ok hrun
    obtain ⟨hy, hsd2⟩ := M.pure_ok hpure
    subst hy
    rw [hsd2] at hrun
    have hloopsd : sd.loops = s.loops ++ [L.lrec] := by rw [hld, hlc, hloops2]
    have htaped : sd.tapes L.lrec
        = some (captureVars s2.values (L.initial_vars.getD L.lrec.vars) Tape.empty) := by
      rw [htd, htc2]
      exact htape_s2
    cases htru : cv.truthy with
    | true =>
      simp only [htru, reduceIte] at hrun
      exact htail_true sd hloopsd htaped hrun
    | false =>
      simp only [htru, reduceIte] at hrun
      exact htail_false sd hloopsd htaped hrun

/-- C4 (amended): a Loop whose body and condition flows touch only
variable values and raise no errors (the run returns `ok`), whose
`save` flag is true (otherwise the Tape is discarded at exit), and a
tracked variable `v` listed once, distinct from the loop's counter,
included in the baseline capture set, live at loop entry and at every
post-body capture point: a run in which the body executes exactly `N`
times leaves a Tape for the loop whose history for `v` has exactly
`N + 1` entries, entry 0 being the value of `v` at loop entry
(the baseline capture) and the last entry being the value of `v`
immediately after the final body execution. -/
theorem C4_tape_entries {I : Type} (L : Loop I) (i : I) (fuel N : Nat) (s : State)
    (v : Var) (x0 : Val)
    (hb : valuesOnly L.body_flow) (hcnd : valuesOnly L.condition_flow)
    (hsave : L.lrec.save = true)
    (hcount : L.lrec.vars.count v = 1)
    (hinit : (L.initial_vars.getD L.lrec.vars).count v = 1)
    (hvc : v ≠ L.lrec.counter)
    (hN : traceLen (L.opFuel i fuel s) = some N)
    (hlive : traceLive v (L.opFuel i fuel s) = true)
    (hx0 : s.values v = some x0) :
    ∃ t hl, (resState (L.opFuel i fuel s)).tapes L.lrec = some t ∧
      t.histories v = some hl ∧
      hl.length = N + 1 ∧
      hl.head? = some x0 ∧
      (0 < N → ∃ xl, lastTraceVal v (L.opFuel i fuel s) = some (some xl) ∧
        hl.getLast? = some xl) := by
  cases hr : L.opFuel i fuel s with
  | err e s' =>
    rw [hr] at hN
    simp [traceLen, resVal] at hN
  | ok tr s' =>
    rw [hr] at hN hlive
    have htrN : tr.length = N := by simpa [traceLen, resVal] using hN
    have hlv : ∀ u ∈ tr, (u.values v).isSome = true := by
      intro u hu
      simp only [traceLive, List.all_eq_true] at hlive
      exact hlive u hu
    obtain ⟨t', hfin, hhist⟩ :=
      Loop.opFuel_spec L i hb hcnd hsave v hcount hinit hvc fuel s tr s' hr x0 hx0
    rw [trCapture_live v [x0] tr hlv] at hhist
    have hfmlen : (tr.filterMap fun u => u.values v).length = N := by
      rw [filterMap_values_length v tr hlv, htrN]
    refine ⟨t', [x0] ++ tr.filterMap (fun u => u.values v),
      by simpa [resState] using hfin, hhist, ?_, by simp, ?_⟩
    · simp only [List.length_append, List.length_cons, List.length_nil, hfmlen]
      omega
    · intro hNpos
      have htrne : tr ≠ [] := by
        intro hemp
        rw [hemp] at htrN
        simp at htrN
        omega
      obtain ⟨u, xl, hul, hxl, happ⟩ := getLast_filterMap_values v tr hlv htrne [x0]
      exact ⟨xl, by simp [lastTraceVal, hul, hxl], happ⟩

/-- The Var `z` of the C4 counterexample. -/
def zVar : Var := ⟨16⟩

/-- Counter of the C4 counterexample loop. -/
def cnt4c : Var := ⟨17⟩

/-- C4-counterexample loop configuration: tracks `z`, `save=True`. -/
def rec4c : LoopRec := ⟨8, cnt4c, [zVar], true⟩

/-- A loop tracking `z` but with an explicit empty `initial_vars`, so
the baseline `advance` captures nothing. -/
def L4c : Loop Unit := ⟨incVar zVar, condLtFlow zVar 1, rec4c, true, some []⟩

/-- Initial state of the counterexample run: `z = 0`. -/
def s4c : State :=
  ⟨fun w => if w = zVar then some (.int 0) else none, [], fun _ => none, fun _ => none⟩

/-- The counterexample run. -/
def c4run : Res (List State) := L4c.opFuel () 10 s4c

/-- Counterexample to C4 as stated: `z` is tracked, live at loop entry
and at every capture point, the body executes exactly `N = 1` time and
the run raises no error — yet the Tape history for `z` has exactly ONE
entry (not `N + 1 = 2`), and its entry 0 is the value `1` captured
after the body execution, not the loop-entry baseline `0`: with
`initialVars = []`, the baseline `advance` captures nothing. -/
theorem C4_counterexample :
    traceLen c4run = some 1 ∧
    s4c.values zVar = some (.int 0) ∧
    traceLive zVar c4run = true ∧
    ((resState c4run).tapes rec4c).map (fun t => t.histories zVar)
      = some (some [.int 1]) :=
  ⟨rfl, rfl, rfl, rfl⟩

/-- The Var `w` of the C4 witness. -/
def wVar : Var := ⟨18⟩

/-- Counter of the C4 witness loop. -/
def cntW : Var := ⟨19⟩

/-- C4-witness loop configuration: tracks `w`, `save=True`. -/
def recW : LoopRec := ⟨9, cntW, [wVar], true⟩

/-- C4-witness loop: body `w += 1`, condition `w < 2`, default
`initial_vars`. -/
def LW : Loop Unit := ⟨incVar wVar, condLtFlow wVar 2, recW, true, none⟩

/-- Initial state of the witness run: `w = 0`. -/
def sW : State :=
  ⟨fun w => if w = wVar then some (.int 0) else none, [], fun _ => none, fun _ => none⟩

theorem C4_witness :
    ∃ t hl, (resState (LW.opFuel () 10 sW)).tapes LW.lrec = some t ∧
      t.histories wVar = some hl ∧
      hl.length = 2 + 1 ∧
      hl.head? = some (.int 0) ∧
      (0 < 2 → ∃ xl, lastTraceVal wVar (LW.opFuel () 10 sW) = some (some xl) ∧
        hl.getLast? = some xl) :=
  C4_tape_entries LW () 10 2 sW wVar (.int 0)
    (valuesOnly_incVar wVar) (valuesOnly_condLtFlow wVar 2) rfl (by decide) (by decide)
    (by decide) rfl rfl rfl

end FlowSpec
